import Mathlib

/-!
Shallow embedding of the local MapReduce framework in `src/main.py`:
the file-based input enumerator (`PathInputData.generate_inputs`), the
generic worker factory (`GenericWorker.create_workers`), the two-phase
execution engine (`execute`), the driver (`mapreduce`), and the concrete
count-lines instantiation (`LineCountWorker`).

Modelling decisions, all directly tied to the Python source:
* The filesystem is a parameter: `os.listdir` becomes a function
  `fs : String → List DirEntry`, and `PathInputData.read` becomes a
  function `read : String → String` from paths to file content.
* A Python `dict` configuration is an association list with unique keys;
  `config['data_dir']` on a missing key raises `KeyError`, modelled as
  `Except.error MRError.missingDataDir` (the configuration-error kind).
* `first, *rest = workers` on the empty list raises `ValueError` exactly
  when the collection is empty, at the accumulator-selection step; this
  is the empty-input error kind, modelled as `Except.error MRError.emptyInput`.
* Each map thread mutates only its own worker, so the post-barrier state
  of the worker list is `workers.map map`; the nondeterministic order in
  which the threads finish is modelled separately by `executeSchedule`.
-/

/-- Error kinds that can surface from the engine or the enumerator. -/
inductive MRError where
  | missingDataDir
  | emptyInput
deriving Repr, DecidableEq

/-- A configuration mapping (a Python `dict` of string options). -/
abbrev Config := List (String × String)

/-- Look a key up in a configuration mapping (Python `config[key]`, as an
`Option` so the missing-key case is explicit). -/
def Config.lookup (cfg : Config) (key : String) : Option String :=
  match cfg with
  | [] => none
  | (k, v) :: rest => if k = key then some v else Config.lookup rest key

/-- One entry of a directory listing, together with whether it is a
regular file (the `os.path.isfile` test the spec talks about). -/
structure DirEntry where
  name : String
  isFile : Bool
deriving Repr, DecidableEq

/-- `os.path.join` for the two-argument case used in the source. -/
def os_path_join (a b : String) : String := a ++ "/" ++ b

/-- Input data stored at a path on the local filesystem
(`PathInputData.__init__` stores the path). -/
structure PathInputData where
  path : String
deriving Repr, DecidableEq

/-- `PathInputData.generate_inputs`: reads `config['data_dir']` (raising
the configuration error when the key is missing) and yields
`cls(os.path.join(data_dir, name))` for every `name` in
`os.listdir(data_dir)`.  The source applies no `isfile` filter: every
directory entry is yielded. -/
def PathInputData.generate_inputs (fs : String → List DirEntry)
    (config : Config) : Except MRError (List PathInputData) :=
  match config.lookup "data_dir" with
  | none => .error .missingDataDir
  | some data_dir =>
      .ok ((fs data_dir).map fun e => ⟨os_path_join data_dir e.name⟩)

/-- The worker capability set the engine uses (`map`, `reduce`, the
`result` accessor).  Python methods mutating `self` become state
transformers: `map` returns the worker after `w.map()`, and `reduce`
returns the pair (state of `self`, state of `other`) after
`self.reduce(other)` (the engine discards `reduce`'s return value). -/
structure WorkerOps (W R : Type) where
  map : W → W
  reduce : W → W → W × W
  result : W → R

/-- `GenericWorker.create_workers`: for each input yielded by the
enumerator, in order, append one worker built from it; an enumerator
error propagates before any worker is built. -/
def create_workers {I W : Type} (mk : I → W)
    (gen : Config → Except MRError (List I)) (config : Config) :
    Except MRError (List W) :=
  match gen config with
  | .error e => .error e
  | .ok inputs => .ok (inputs.map mk)

/-- `execute`: run every worker's `map` (one thread per worker, all
joined before anything else happens, so the post-barrier list is
`workers.map ops.map`); then `first, *rest = workers` (the empty-input
failure when the list is empty), fold `first.reduce(worker)` over `rest`
in order, and return `first.result`. -/
def execute {W R : Type} (ops : WorkerOps W R) (workers : List W) :
    Except MRError R :=
  match workers.map ops.map with
  | [] => .error .emptyInput
  | first :: rest =>
      .ok (ops.result (rest.foldl (fun acc w => (ops.reduce acc w).1) first))

/-- The reduce loop of `execute`, instrumented to also return the final
state of every non-accumulator worker (Python mutates the workers in
place, so those states are observable after `execute` returns). -/
def reduceLoop {W R : Type} (ops : WorkerOps W R) :
    W → List W → W × List W
  | first, [] => (first, [])
  | first, w :: rest =>
      let p := ops.reduce first w
      let q := reduceLoop ops p.1 rest
      (q.1, p.2 :: q.2)

/-- `execute`, instrumented to return (final accumulator state, final
states of the remaining workers, returned result).  Same engine as
`execute`; `executeFull_result` below proves the projection agrees. -/
def executeFull {W R : Type} (ops : WorkerOps W R) (workers : List W) :
    Except MRError (W × List W × R) :=
  match workers.map ops.map with
  | [] => .error .emptyInput
  | first :: rest =>
      let q := reduceLoop ops first rest
      .ok (q.1, q.2, ops.result q.1)

/-- `mapreduce`: build the workers with the factory, then run the
engine; a factory error propagates. -/
def mapreduce {I W R : Type} (ops : WorkerOps W R) (mk : I → W)
    (gen : Config → Except MRError (List I)) (config : Config) :
    Except MRError R :=
  match create_workers mk gen config with
  | .error e => .error e
  | .ok workers => execute ops workers

/-- `data.count(c)` for a one-character needle: the number of
occurrences of the character in the string. -/
def countChar (c : Char) (s : String) : Nat := s.data.count c

/-- Line separator used by the count-lines instantiation. -/
def newlineChar : Char := Char.ofNat 10

/-- The count-lines worker: one input, and a `result` slot that starts
unset (`None` in Python, `none` here). -/
structure LineCountWorker where
  input_data : PathInputData
  result : Option Nat
deriving Repr, DecidableEq

/-- `LineCountWorker(input_data)`: the constructor sets `result = None`. -/
def LineCountWorker.mkWorker (input_data : PathInputData) : LineCountWorker :=
  { input_data := input_data, result := none }

/-- `LineCountWorker.map`: read the input content and overwrite `result`
with the number of line separators in it. -/
def LineCountWorker.map (read : String → String) (w : LineCountWorker) :
    LineCountWorker :=
  { w with result := some (countChar newlineChar (read w.input_data.path)) }

/-- `self.result += other.result` on `Option Nat`.  Python raises
`TypeError` when either side is still `None`; the engine only calls
`reduce` after the map barrier, where every `result` is set, so the
unset case (returned as `none`) is unreachable there. -/
def optAdd : Option Nat → Option Nat → Option Nat
  | some a, some b => some (a + b)
  | _, _ => none

/-- `LineCountWorker.reduce`: add the other worker's `result` into this
worker's `result`.  The statement writes only `self.result`; the other
worker is returned unchanged. -/
def LineCountWorker.reduce (self other : LineCountWorker) :
    LineCountWorker × LineCountWorker :=
  ({ self with result := optAdd self.result other.result }, other)

/-- The count-lines instantiation of the worker capability set, over a
given filesystem read function. -/
def LCops (read : String → String) : WorkerOps LineCountWorker (Option Nat) :=
  { map := LineCountWorker.map read
  , reduce := LineCountWorker.reduce
  , result := fun w => w.result }

/-- The line count of worker `w`'s input under filesystem `read`. -/
def lineCount (read : String → String) (w : LineCountWorker) : Nat :=
  countChar newlineChar (read w.input_data.path)

/-- An observable event of one `execute` run over `n` workers, by worker
index: `mapDone i` is the completion of worker `i`'s map task, and
`reduceCall i` is the engine's call `first.reduce(workers[i])`. -/
inductive MREvent where
  | mapDone (i : Nat)
  | reduceCall (i : Nat)
deriving Repr, DecidableEq

/-- The event order of one `execute` run over `n` workers: the engine
starts one map thread per worker and joins them all, so the `n` map
completions occur first, in some scheduler-chosen order `mapOrder`
(any permutation of the indices `0..n-1`); only then does the reduce
loop call `first.reduce(workers[i])` for `i = 1..n-1` in order. -/
def executeSchedule (n : Nat) (mapOrder : List Nat) : List MREvent :=
  mapOrder.map MREvent.mapDone ++ ((List.range n).drop 1).map MREvent.reduceCall

/-- Whether an event is a map completion. -/
def MREvent.isMapDone : MREvent → Bool
  | .mapDone _ => true
  | .reduceCall _ => false

/-! ## Helper lemmas -/

/-- The accumulator the instrumented reduce loop produces is the left
fold `execute` computes. -/
theorem reduceLoop_fst_eq_foldl {W R : Type} (ops : WorkerOps W R) :
    ∀ (rest : List W) (first : W),
      (reduceLoop ops first rest).1 =
        rest.foldl (fun acc w => (ops.reduce acc w).1) first := by
  intro rest
  induction rest with
  | nil => intro first; rfl
  | cons w ws ih => intro first; simp [reduceLoop, ih]

/-- The count-lines `reduce` leaves the other worker untouched, so the
reduce loop returns the non-accumulator workers unchanged. -/
theorem reduceLoop_LC_snd (read : String → String) :
    ∀ (rest : List LineCountWorker) (first : LineCountWorker),
      (reduceLoop (LCops read) first rest).2 = rest := by
  intro rest
  induction rest with
  | nil => intro first; rfl
  | cons w ws ih =>
      intro first
      show ((LCops read).reduce first w).2 ::
          (reduceLoop (LCops read) ((LCops read).reduce first w).1 ws).2 = w :: ws
      rw [ih]
      rfl

/-- Folding the count-lines `reduce` over mapped workers adds their
line counts into the accumulator's result slot. -/
theorem foldl_reduce_result (read : String → String) :
    ∀ (rest : List LineCountWorker) (acc : LineCountWorker) (a : Nat),
      acc.result = some a →
      ((rest.map (LCops read).map).foldl
          (fun x w => ((LCops read).reduce x w).1) acc).result =
        some (a + (rest.map (lineCount read)).sum) := by
  intro rest
  induction rest with
  | nil => intro acc a h; simpa using h
  | cons w ws ih =>
      intro acc a h
      simp only [List.map_cons, List.foldl_cons, List.sum_cons]
      have hstep :
          (((LCops read).reduce acc ((LCops read).map w)).1).result =
            some (a + lineCount read w) := by
        simp [LCops, LineCountWorker.reduce, LineCountWorker.map, h, optAdd, lineCount]
      rw [ih _ (a + lineCount read w) hstep]
      simp [Nat.add_assoc]

/-- On a non-empty collection, the count-lines `execute` returns the sum
of the per-worker line counts. -/
theorem execute_LC_eq_sum (read : String → String) (w : LineCountWorker)
    (rest : List LineCountWorker) :
    execute (LCops read) (w :: rest) =
      .ok (some (((w :: rest).map (lineCount read)).sum)) := by
  simp only [execute, List.map_cons]
  have hres : ((LCops read).map w).result = some (lineCount read w) := by
    simp [LCops, LineCountWorker.map, lineCount]
  have h := foldl_reduce_result read rest ((LCops read).map w) (lineCount read w) hres
  simp only [List.map_cons, List.sum_cons]
  exact congrArg Except.ok h

/-- Folding addition from the left starting at `a` adds the list's sum. -/
theorem foldl_add_eq_add_sum :
    ∀ (cs : List Nat) (a : Nat), cs.foldl (fun x y => x + y) a = a + cs.sum := by
  intro cs
  induction cs with
  | nil => intro a; simp
  | cons c cs ih => intro a; simp [List.foldl_cons, List.sum_cons, ih, Nat.add_assoc]

/-! ## Claim theorems -/

/-- Claim C1: for the count-lines instantiation, on every non-empty worker
collection `execute` returns the sum of the per-worker line counts, where
each worker's line count is the number of newline characters in the content
its input path reads to. -/
theorem linecount_execute_returns_total (read : String → String)
    (w : LineCountWorker) (rest : List LineCountWorker) :
    execute (LCops read) (w :: rest) =
      .ok (some (((w :: rest).map (lineCount read)).sum)) :=
  execute_LC_eq_sum read w rest

/-- Claim C3: `execute` on the empty worker collection fails with the
empty-input error kind (the accumulator-selection step has no element to
take), and on every non-empty collection it returns a result rather than
that error. -/
theorem execute_empty_collection_fails :
    ∀ (W R : Type) (ops : WorkerOps W R),
      execute ops ([] : List W) = Except.error MRError.emptyInput ∧
      ∀ (ws : List W), ws ≠ [] → ∃ r, execute ops ws = Except.ok r := by
  intro W R ops
  constructor
  · rfl
  · intro ws hws
    cases ws with
    | nil => exact absurd rfl hws
    | cons w rest =>
        exact ⟨ops.result ((rest.map ops.map).foldl
          (fun acc x => (ops.reduce acc x).1) (ops.map w)), rfl⟩

/-- Witness for C3 at a concrete instantiation. -/
theorem execute_empty_collection_fails_witness :
    execute (LCops (fun _ => "")) [] = Except.error MRError.emptyInput ∧
    ∃ r, execute (LCops (fun _ => ""))
        [LineCountWorker.mkWorker ⟨"p"⟩] = Except.ok r :=
  ⟨(execute_empty_collection_fails LineCountWorker (Option Nat)
      (LCops (fun _ => ""))).1,
   (execute_empty_collection_fails LineCountWorker (Option Nat)
      (LCops (fun _ => ""))).2 [LineCountWorker.mkWorker ⟨"p"⟩] (by simp)⟩

/-- Claim C5: on a non-empty collection the reduce phase of `execute` is
the sequential left fold that takes the first worker as accumulator and
folds the remaining workers in collection order; for the count-lines
instantiation the returned value is the left-to-right fold of the
per-worker map results under the reduce operation (addition). -/
theorem execute_reduce_is_left_fold :
    ∀ (W R : Type) (ops : WorkerOps W R) (w : W) (rest : List W),
      execute ops (w :: rest) =
        Except.ok (ops.result ((rest.map ops.map).foldl
          (fun acc x => (ops.reduce acc x).1) (ops.map w))) ∧
      ∀ (read : String → String) (w2 : LineCountWorker)
        (rest2 : List LineCountWorker),
        execute (LCops read) (w2 :: rest2) =
          Except.ok (some ((rest2.map (lineCount read)).foldl
            (fun a b => a + b) (lineCount read w2))) := by
  intro W R ops w rest
  constructor
  · rfl
  · intro read w2 rest2
    rw [execute_LC_eq_sum, foldl_add_eq_add_sum]
    simp [List.map_cons, List.sum_cons]

/-- Claim C7: for the count-lines instantiation the value `execute`
returns is invariant under permutation of the worker collection. -/
theorem linecount_execute_perm_invariant :
    ∀ (read : String → String) (ws₁ ws₂ : List LineCountWorker),
      ws₁.Perm ws₂ → ws₁ ≠ [] →
      execute (LCops read) ws₁ = execute (LCops read) ws₂ := by
  intro read ws₁ ws₂ hperm hne
  cases ws₁ with
  | nil => exact absurd rfl hne
  | cons w rest =>
      cases ws₂ with
      | nil =>
          have hl := hperm.length_eq
          simp at hl
      | cons w2 rest2 =>
          rw [execute_LC_eq_sum, execute_LC_eq_sum]
          have hmap := hperm.map (lineCount read)
          rw [hmap.sum_eq]

/-- Witness for C7: swapping two concrete workers leaves the result. -/
theorem linecount_execute_perm_invariant_witness :
    execute (LCops (fun _ => "x\n"))
        [LineCountWorker.mkWorker ⟨"a"⟩, LineCountWorker.mkWorker ⟨"b"⟩] =
      execute (LCops (fun _ => "x\n"))
        [LineCountWorker.mkWorker ⟨"b"⟩, LineCountWorker.mkWorker ⟨"a"⟩] :=
  linecount_execute_perm_invariant (fun _ => "x\n") _ _ (by decide) (by decide)

/-- Claim C9: the count-lines `map` overwrites `result` from the input
content alone, so calling it twice with unchanged content leaves the
worker exactly as after the first call. -/
theorem linecount_map_idempotent :
    ∀ (read : String → String) (w : LineCountWorker),
      LineCountWorker.map read (LineCountWorker.map read w) =
        LineCountWorker.map read w := by
  intro read w
  rfl

/-- Counterexample for C2 as stated: the source enumerator applies no
regular-file filter.  On a listing with one regular file and one
non-file entry (a subdirectory) it yields two InputSource instances,
not one. -/
theorem generate_inputs_keeps_non_files_cex :
    (PathInputData.generate_inputs
        (fun _ => [⟨"a.txt", true⟩, ⟨"sub", false⟩])
        [("data_dir", "d")]).map List.length = Except.ok 2 ∧
    ([(⟨"a.txt", true⟩ : DirEntry), ⟨"sub", false⟩].countP
        (fun e => e.isFile)) = 1 ∧
    (2 : Nat) ≠ 1 :=
  ⟨rfl, rfl, by decide⟩

/-- Claim C2 (amended): whenever the configuration holds a `data_dir`,
`generate_inputs` yields exactly one InputSource per directory entry —
regular files and non-file entries alike, nothing is skipped — each
holding the joined path, in listing order. -/
theorem generate_inputs_yields_every_entry :
    ∀ (fs : String → List DirEntry) (cfg : Config) (d : String),
      cfg.lookup "data_dir" = some d →
      PathInputData.generate_inputs fs cfg =
        Except.ok ((fs d).map fun e => ⟨os_path_join d e.name⟩) ∧
      (PathInputData.generate_inputs fs cfg).map List.length =
        Except.ok (fs d).length := by
  intro fs cfg d h
  constructor
  · simp [PathInputData.generate_inputs, h]
  · simp [PathInputData.generate_inputs, h, Except.map]

/-- Witness for the amended C2 at a concrete listing. -/
theorem generate_inputs_yields_every_entry_witness :
    PathInputData.generate_inputs
        (fun _ => [⟨"a.txt", true⟩, ⟨"sub", false⟩]) [("data_dir", "e")] =
      Except.ok ([⟨"a.txt", true⟩, (⟨"sub", false⟩ : DirEntry)].map fun x =>
        ⟨os_path_join "e" x.name⟩) :=
  (generate_inputs_yields_every_entry
      (fun _ => [⟨"a.txt", true⟩, ⟨"sub", false⟩])
      [("data_dir", "e")] "e" rfl).1

/-- Claim C6: a configuration without `data_dir` makes the enumerator
fail with the configuration error, which `create_workers` propagates
with zero workers constructed; a key other than `data_dir` added to the
configuration does not change the enumeration. -/
theorem missing_data_dir_is_config_error :
    ∀ (W : Type) (mk : PathInputData → W) (fs : String → List DirEntry)
      (cfg : Config),
      (cfg.lookup "data_dir" = none →
        PathInputData.generate_inputs fs cfg =
          Except.error MRError.missingDataDir ∧
        create_workers mk (PathInputData.generate_inputs fs) cfg =
          Except.error MRError.missingDataDir) ∧
      ∀ (k v : String), k ≠ "data_dir" →
        PathInputData.generate_inputs fs ((k, v) :: cfg) =
          PathInputData.generate_inputs fs cfg := by
  intro W mk fs cfg
  constructor
  · intro h
    have hg : PathInputData.generate_inputs fs cfg =
        Except.error MRError.missingDataDir := by
      simp [PathInputData.generate_inputs, h]
    exact ⟨hg, by simp [create_workers, hg]⟩
  · intro k v hk
    simp [PathInputData.generate_inputs, Config.lookup, hk]

/-- Witness for C6 on the empty configuration and an extra key. -/
theorem missing_data_dir_is_config_error_witness :
    create_workers LineCountWorker.mkWorker
        (PathInputData.generate_inputs (fun _ => [])) [] =
      Except.error MRError.missingDataDir ∧
    PathInputData.generate_inputs (fun _ => ([] : List DirEntry))
        [("other", "x")] =
      PathInputData.generate_inputs (fun _ => []) [] :=
  ⟨((missing_data_dir_is_config_error LineCountWorker LineCountWorker.mkWorker
      (fun _ => []) []).1 rfl).2,
   (missing_data_dir_is_config_error LineCountWorker LineCountWorker.mkWorker
      (fun _ => []) []).2 "other" "x" (by decide)⟩

/-- Claim C8: `mapreduce` is exactly the composition of the factory and
the engine, and on a successful enumeration the factory builds one
worker per InputSource, preserving enumeration order (the worker at
index `k` is built from the input at index `k`). -/
theorem mapreduce_is_composition :
    ∀ (I W R : Type) (ops : WorkerOps W R) (mk : I → W)
      (gen : Config → Except MRError (List I)) (cfg : Config),
      mapreduce ops mk gen cfg =
        (create_workers mk gen cfg).bind (execute ops) ∧
      ∀ (inputs : List I), gen cfg = Except.ok inputs →
        create_workers mk gen cfg = Except.ok (inputs.map mk) ∧
        (inputs.map mk).length = inputs.length ∧
        ∀ (k : Nat) (hk : k < inputs.length)
          (hk2 : k < (inputs.map mk).length),
          (inputs.map mk).get ⟨k, hk2⟩ = mk (inputs.get ⟨k, hk⟩) := by
  intro I W R ops mk gen cfg
  constructor
  · show (match create_workers mk gen cfg with
      | .error e => .error e
      | .ok workers => execute ops workers) =
        (create_workers mk gen cfg).bind (execute ops)
    cases hc : create_workers mk gen cfg with
    | error e => rfl
    | ok ws => rfl
  · intro inputs h
    refine ⟨by simp [create_workers, h], by simp, ?_⟩
    intro k hk hk2
    simp [List.get_eq_getElem, List.getElem_map]

/-- Witness for C8 at a concrete enumerator with two inputs. -/
theorem mapreduce_is_composition_witness :
    create_workers LineCountWorker.mkWorker
        (fun _ => Except.ok [(⟨"p1"⟩ : PathInputData), ⟨"p2"⟩]) [] =
      Except.ok ([(⟨"p1"⟩ : PathInputData), ⟨"p2"⟩].map
        LineCountWorker.mkWorker) :=
  ((mapreduce_is_composition PathInputData LineCountWorker (Option Nat)
      (LCops (fun _ => "")) LineCountWorker.mkWorker
      (fun _ => Except.ok [⟨"p1"⟩, ⟨"p2"⟩]) []).2 [⟨"p1"⟩, ⟨"p2"⟩] rfl).1

/-- Claim C10: the reduce phase writes only the accumulator: after
`execute` on a non-empty count-lines collection, every worker but the
first still holds exactly the state its own `map` produced, so its
`result` is the line count of its own input. -/
theorem execute_frames_tail_workers :
    ∀ (read : String → String) (w : LineCountWorker)
      (rest : List LineCountWorker),
      (executeFull (LCops read) (w :: rest)).map (fun t => t.2.1) =
        Except.ok (rest.map (LineCountWorker.map read)) ∧
      ∀ (k : Nat) (hk : k < rest.length)
        (hk2 : k < (rest.map (LineCountWorker.map read)).length),
        ((rest.map (LineCountWorker.map read)).get ⟨k, hk2⟩).result =
          some (lineCount read (rest.get ⟨k, hk⟩)) := by
  intro read w rest
  constructor
  · show Except.ok ((reduceLoop (LCops read) ((LCops read).map w)
        (rest.map (LCops read).map)).2) =
      Except.ok (rest.map (LineCountWorker.map read))
    rw [reduceLoop_LC_snd read (rest.map (LCops read).map) ((LCops read).map w)]
    rfl
  · intro k hk hk2
    simp [List.get_eq_getElem, List.getElem_map, LineCountWorker.map, lineCount]

/-- Witness for C10 at a concrete two-worker collection. -/
theorem execute_frames_tail_workers_witness :
    (([LineCountWorker.mkWorker ⟨"b"⟩].map
        (LineCountWorker.map (fun _ => "\n"))).get ⟨0, by simp⟩).result =
      some (lineCount (fun _ => "\n")
        ([LineCountWorker.mkWorker ⟨"b"⟩].get ⟨0, by simp⟩)) :=
  (execute_frames_tail_workers (fun _ => "\n")
      (LineCountWorker.mkWorker ⟨"a"⟩)
      [LineCountWorker.mkWorker ⟨"b"⟩]).2 0 (by simp) (by simp)

/-- Claim C4: over every non-empty collection of `n` workers and every
scheduler-chosen completion order of the map threads (a permutation of
the worker indices), the event order of `execute` contains exactly one
map-completion per worker, and every map completion occurs strictly
before every reduce call — the join-all barrier separates the phases. -/
theorem execute_schedule_maps_before_reduces :
    ∀ (n : Nat) (mapOrder : List Nat),
      mapOrder.Perm (List.range n) → 0 < n →
      (∀ i, i < n →
        (executeSchedule n mapOrder).count (MREvent.mapDone i) = 1) ∧
      (∀ p q (hp : p < (executeSchedule n mapOrder).length)
         (hq : q < (executeSchedule n mapOrder).length),
         ((executeSchedule n mapOrder).get ⟨p, hp⟩).isMapDone = true →
         ((executeSchedule n mapOrder).get ⟨q, hq⟩).isMapDone = false →
         p < q) := by
  intro n mo hperm hn
  have hlen : mo.length = n := by simpa using hperm.length_eq
  constructor
  · intro i hi
    simp only [executeSchedule, List.count_append]
    have h1 : (mo.map MREvent.mapDone).count (MREvent.mapDone i) = 1 := by
      rw [List.count_map_of_injective mo MREvent.mapDone
        (fun a b h => MREvent.mapDone.inj h) i]
      rw [hperm.count_eq i]
      exact List.count_eq_one_of_mem (List.nodup_range n) (List.mem_range.mpr hi)
    have h2 : (((List.range n).drop 1).map MREvent.reduceCall).count
        (MREvent.mapDone i) = 0 := by
      rw [List.count_eq_zero]
      intro hmem
      rcases List.mem_map.mp hmem with ⟨j, _, hj⟩
      exact MREvent.noConfusion hj
    rw [h1, h2]
  · intro p q hp hq hpm hqm
    simp only [executeSchedule, List.get_eq_getElem] at hpm hqm
    have hpn : p < (mo.map MREvent.mapDone).length := by
      by_contra hc
      push_neg at hc
      rw [List.getElem_append_right hc] at hpm
      rw [List.getElem_map] at hpm
      simp [MREvent.isMapDone] at hpm
    have hqn : (mo.map MREvent.mapDone).length ≤ q := by
      by_contra hc
      push_neg at hc
      rw [List.getElem_append_left hc] at hqm
      rw [List.getElem_map] at hqm
      simp [MREvent.isMapDone] at hqm
    omega

/-- Witness for C4 on two workers whose map threads finish in reversed
order. -/
theorem execute_schedule_maps_before_reduces_witness :
    (executeSchedule 2 [1, 0]).count (MREvent.mapDone 0) = 1 ∧
    (executeSchedule 2 [1, 0]).count (MREvent.mapDone 1) = 1 :=
  ⟨(execute_schedule_maps_before_reduces 2 [1, 0] (by decide) (by decide)).1 0
      (by decide),
   (execute_schedule_maps_before_reduces 2 [1, 0] (by decide) (by decide)).1 1
      (by decide)⟩

/-- Projecting the instrumented engine to its returned value gives back
`execute`: the two are the same engine. -/
theorem executeFull_result {W R : Type} (ops : WorkerOps W R)
    (workers : List W) :
    (executeFull ops workers).map (fun t => t.2.2) = execute ops workers := by
  cases hw : workers.map ops.map with
  | nil => simp [executeFull, execute, hw, Except.map]
  | cons first rest =>
      simp [executeFull, execute, hw, Except.map, reduceLoop_fst_eq_foldl]
